import Mathlib

/-!
Shallow embedding of the `Model_base` class from `sjSDM_py/model.py`
(a Monte-Carlo multivariate-probit joint species distribution model).

Modelling conventions:
* real/floating-point arithmetic is modelled over `ℚ`; the transcendental
  functions supplied by the tensor backend (`torch.sigmoid`, `torch.log`,
  `torch.exp`) and `torch.inverse` are passed as opaque function parameters,
  since the tensor runtime is an external collaborator of this core;
* tensors are modelled as `Fin`-indexed functions (for the loss formulas)
  or as lists of rows (for the batched drivers);
* the process-wide random number generator is modelled as an explicitly
  supplied stream of draws;
* loops are written with an explicit fuel argument equal to the list length,
  so that every definition reduces by evaluation;
* a Python runtime error (invalid tensor broadcast, `NameError`) is modelled
  by returning `none`.
-/

/-- Batching as in `torch.utils.data.DataLoader` with `drop_last=True`:
full batches of size `b`, the trailing partial batch dropped.
Fuel-based worker; fuel is the remaining list length. -/
def chunksDropGo (b : Nat) : Nat → List α → List (List α)
  | _, [] => []
  | 0, _ :: _ => []
  | fuel + 1, x :: xs =>
    if (x :: xs).length < b then []
    else (x :: xs).take b :: chunksDropGo b fuel ((x :: xs).drop b)

/-- Batching as in `torch.utils.data.DataLoader` with `drop_last=False`:
full batches of size `b` plus the trailing partial batch. -/
def chunksAllGo (b : Nat) : Nat → List α → List (List α)
  | _, [] => []
  | 0, _ :: _ => []
  | fuel + 1, x :: xs =>
    (x :: xs).take b :: chunksAllGo b fuel ((x :: xs).drop b)

/-- Batches of size `b` with the trailing partial batch dropped. -/
def chunksDrop (b : Nat) (xs : List α) : List (List α) :=
  if b = 0 then [] else chunksDropGo b xs.length xs

/-- Batches of size `b` including the trailing partial batch. -/
def chunksAll (b : Nat) (xs : List α) : List (List α) :=
  if b = 0 then [] else chunksAllGo b xs.length xs

/-- Embedding of `Model_base._get_DataLoader`: the batch layout produced by the data
loader.  Shuffling is applied upstream by the caller supplying the
(already permuted) row list, mirroring the external shuffling facility. -/
def getDataLoader (b : Nat) (drop_last : Bool) (xs : List α) : List (List α) :=
  if drop_last then chunksDrop b xs else chunksAll b xs

/-- Map a function receiving the in-batch row index over a batch
(`j` is the starting index). -/
def mapRows (f : Nat → ρ → σ) : Nat → List ρ → List σ
  | _, [] => []
  | j, x :: xs => f j x :: mapRows f (j + 1) xs

/-- The batch loop of `Model_base.predict`: for each batch (index `k`) of
`b` rows, apply the forward pass plus evaluation-mode loss to every row and
concatenate the per-batch outputs in order.  `evalRow k j x` abstracts the
evaluation-mode output for row `x` at position `j` of batch `k` (the fresh
per-batch Monte-Carlo noise draw is a function of `(k, j)`). -/
def predictLoopGo (evalRow : Nat → Nat → ρ → σ) (b : Nat) : Nat → Nat → List ρ → List σ
  | _, _, [] => []
  | 0, _, _ :: _ => []
  | fuel + 1, k, x :: xs =>
    mapRows (evalRow k) 0 ((x :: xs).take b) ++
      predictLoopGo evalRow b fuel (k + 1) ((x :: xs).drop b)

/-- Embedding of `Model_base.predict`: batches with `shuffle=False`, `drop_last=False`,
per-batch evaluation-mode outputs concatenated with `torch.cat`. -/
def predictModel (evalRow : Nat → Nat → ρ → σ) (b : Nat) (xs : List ρ) : List σ :=
  if b = 0 then [] else predictLoopGo evalRow b xs.length 0 xs

/-- The call `loss_function(mu, y, batch_size, sampling)` made by
`Model_base.logLik` on one batch.  The training-mode loss draws noise of
shape `[S, batch_size, df]` and adds `mu` (shape `[n, r]`) to the projected
noise (shape `[S, batch_size, r]`); the tensor backend broadcasts this only
when `n = batch_size`, `n = 1`, or `batch_size = 1`.  Any other trailing
partial batch raises a runtime shape error, modelled as `none`.
`g` abstracts the per-observation loss value (forward pass composed with
the Monte-Carlo training loss). -/
def lossFunctionTrainCall (g : ρ → σ → ℚ) (b : Nat) :
    List ρ → List σ → Option (List ℚ)
  | [x], [y] => some (List.replicate b (g x y))
  | mu, ys =>
    if mu.length = b ∨ b = 1 then some (List.zipWith g mu ys) else none

/-- The accumulation loop of `Model_base.logLik`: per batch, evaluate the
training-mode loss, reduce it by `torch.sum`, add it to the running data
term, and (when the model has registered loss closures) re-evaluate the
regularization terms and add their sum to the running regularization term. -/
def logLikLoop (lossCall : List ρ → List σ → Option (List ℚ)) (regs : List ℚ) :
    List (List ρ × List σ) → ℚ → ℚ → Option (ℚ × ℚ)
  | [], a, r => some (a, r)
  | (cx, cy) :: rest, a, r =>
    match lossCall cx cy with
    | none => none
    | some lv =>
      logLikLoop lossCall regs rest (a + lv.sum)
        (if regs.isEmpty then r else r + regs.sum)

/-- Embedding of `Model_base.logLik`: batches with `shuffle=False`, `drop_last=False`,
training-mode loss reduced per batch by sum, data and regularization terms
accumulated over all batches.  `regs` are the values of the registered
zero-argument loss closures (constant during `logLik`, since no parameter
is updated). -/
def logLikModel (g : ρ → σ → ℚ) (regs : List ℚ) (b : Nat)
    (xs : List ρ) (ys : List σ) : Option (ℚ × ℚ) :=
  logLikLoop (lossFunctionTrainCall g b) regs
    ((getDataLoader b false xs).zip (getDataLoader b false ys)) 0 0

/-- The covariance factor `self.sigma`, as a list of `r` rows of `df`
rational entries. -/
abbrev SigmaT := List (List ℚ)

/-- The slice of `Model_base` state that the verified operations touch.
Each feature-transform layer is external (spec §2); a layer is abstracted
to its output width, which is also what `get_weights_numpy` snapshots are
keyed on here.  `losses` holds the registered zero-argument regularization
closures, reading the current covariance factor. -/
structure ModelState where
  input_shape : Nat
  layers : List Nat
  df : Option Nat
  sigma : SigmaT
  losses : List (SigmaT → ℚ)
  history : List ℚ
  weights_numpy : List Nat
  sigma_numpy : SigmaT

/-- Allocation `np.random.uniform(low, high, [r_dim, df])` with the draws supplied by
the explicit generator `draw` (the uniform bounds are a property of the
external generator, not of this allocation). -/
def initSigma (r d : Nat) (draw : Nat → Nat → ℚ) : SigmaT :=
  (List.range r).map (fun i => (List.range d).map (fun j => draw i j))

/-- Dot product of two rows. -/
def dotRow (xs ys : List ℚ) : ℚ := (List.zipWith (fun a b => a * b) xs ys).sum

/-- Embedding of `torch.matmul(self.sigma, self.sigma.t())`: the reconstructed
covariance `Σ = F·Fᵀ`, entry `(i,j)` the dot product of rows `i` and `j`. -/
def matmulT (s : SigmaT) : SigmaT :=
  s.map (fun ri => s.map (fun rj => dotRow ri rj))

/-- Embedding of `torch.sum(f(torch.triu(m, dg)))`: `f` summed over the entries on and
above the `dg`-th diagonal (row `i` keeps columns `j ≥ i + dg`). -/
def triuRowSums (f : ℚ → ℚ) (dg : Nat) : Nat → SigmaT → ℚ
  | _, [] => 0
  | i, row :: rest => ((row.drop (i + dg)).map f).sum + triuRowSums f dg (i + 1) rest

/-- Embedding of `torch.sum(torch.abs(s))` over all entries of the factor. -/
def sumAbs (s : SigmaT) : ℚ :=
  (s.map (fun row => (row.map (fun x => |x|)).sum)).sum

/-- Embedding of `torch.sum(torch.pow(s, 2.0))` over all entries of the factor. -/
def sumSq (s : SigmaT) : ℚ :=
  (s.map (fun row => (row.map (fun x => x ^ 2)).sum)).sum

/-- Embedding of `Model_base.__build_cov_constrain_function`: the list of zero-argument
regularization closures appended to `self.losses`, as functions of the
covariance factor they capture.  `inv` abstracts `torch.inverse`. -/
def covConstrainLosses (inv : SigmaT → SigmaT) (l1 l2 : ℚ)
    (reg_on_Cov reg_on_Diag inverse : Bool) : List (SigmaT → ℚ) :=
  if reg_on_Cov then
    (if 0 < l1 then
      [fun s => l1 * triuRowSums (fun x => |x|) (if reg_on_Diag then 0 else 1) 0
        (if inverse then inv (matmulT s) else matmulT s)]
     else []) ++
    (if 0 < l2 then
      [fun s => l2 * triuRowSums (fun x => x ^ 2) (if reg_on_Diag then 0 else 1) 0
        (if inverse then inv (matmulT s) else matmulT s)]
     else [])
  else
    (if 0 < l1 then [fun s => l1 * sumAbs s] else []) ++
    (if 0 < l2 then [fun s => l2 * sumSq s] else [])

/-- Embedding of `Model_base.build`: stores `df` only when it is not already set
(`if self.df == None: self.df = int(df) else: df = self.df`), reads the
response width `r` from the last layer (an empty layer stack raises an
index error, modelled as `none`), re-creates `sigma` from fresh uniform
draws of shape `[r, df]`, and appends the covariance-regularization
closures to `losses`.  Layer parameter allocation and the optimizer
binding are external. -/
def buildS (st : ModelState) (dfArg : Nat) (draw : Nat → Nat → ℚ)
    (inv : SigmaT → SigmaT) (l1 l2 : ℚ)
    (reg_on_Cov reg_on_Diag inverse : Bool) : Option ModelState :=
  match st.layers.getLast? with
  | none => none
  | some r =>
    some { st with
      df := some (st.df.getD dfArg),
      sigma := initSigma r (st.df.getD dfArg) draw,
      losses := st.losses ++ covConstrainLosses inv l1 l2 reg_on_Cov reg_on_Diag inverse }

/-- Embedding of `Model_base.add_layer`: appends a layer (its shape chaining is part of
the external layer contract). -/
def addLayerS (st : ModelState) (w : Nat) : ModelState :=
  { st with layers := st.layers ++ [w] }

/-- One batch of the `fit` inner loop: forward pass and training-mode loss
(`lossVecOf`, returning the per-observation loss vector for the batch),
reduced by `torch.mean`, plus every registered regularization closure
re-evaluated at the current parameters; then one optimizer update `opt`
on the parameters.  Returns the updated parameters and the recorded
batch loss. -/
def batchStep (losses : List (SigmaT → ℚ)) (lossVecOf : SigmaT → List ρ → List ℚ)
    (opt : SigmaT → SigmaT) (s : SigmaT) (batch : List ρ) : SigmaT × ℚ :=
  (opt s,
   (lossVecOf s batch).sum / ((lossVecOf s batch).length : ℚ) +
     (losses.map (fun f => f s)).sum)

/-- The inner `for step, (x, y) in enumerate(dataLoader)` loop of `fit`:
threads the parameters and the Python local variable `loss` (which keeps
its previous value — possibly unassigned, `none` — when the loop body
never runs). -/
def runBatches (step : SigmaT → List ρ → SigmaT × ℚ) :
    List (List ρ) → SigmaT → Option ℚ → SigmaT × Option ℚ
  | [], s, prev => (s, prev)
  | batch :: rest, s, _ =>
    runBatches step rest (step s batch).1 (some (step s batch).2)

/-- The epoch loop of `fit`: after each epoch the value of `loss` from the
last executed batch is recorded into `history`; if `loss` was never
assigned (zero batches), reading it raises `NameError`, modelled as
`none`.  Arguments: epochs remaining, current epoch index, parameters,
current value of the `loss` variable. -/
def fitEpochsAux (step : SigmaT → List ρ → SigmaT × ℚ) (loader : Nat → List (List ρ)) :
    Nat → Nat → SigmaT → Option ℚ → Option (SigmaT × List ℚ)
  | 0, _, s, _ => some (s, [])
  | e + 1, i, s, prev =>
    match (runBatches step (loader i) s prev).2 with
    | none => none
    | some l =>
      Option.map (fun p => (p.1, l :: p.2))
        (fitEpochsAux step loader e (i + 1) (runBatches step (loader i) s prev).1 (some l))

/-- Embedding of `Model_base.fit`: per epoch, the shuffled data (`shuffled i` is the
epoch-`i` row order supplied by the external shuffler) is split into full
batches (`drop_last=True`); afterwards the final parameters are
snapshotted into `sigma_numpy` and one `get_weights_numpy` snapshot per
layer is appended to `weights_numpy`; `history` is replaced by the fresh
per-epoch record. -/
def fitFull (lossVecOf : SigmaT → List ρ → List ℚ) (opt : SigmaT → SigmaT)
    (shuffled : Nat → List ρ) (b epochs : Nat) (st : ModelState) :
    Option ModelState :=
  match fitEpochsAux (batchStep st.losses lossVecOf opt)
      (fun i => getDataLoader b true (shuffled i)) epochs 0 st.sigma none with
  | none => none
  | some (s', hist) =>
    some { st with
      sigma := s',
      sigma_numpy := s',
      history := hist,
      weights_numpy := st.weights_numpy ++ st.layers }

/-- Composition of `k` successive completed `fit` calls on the same model. -/
def fitK (lossVecOf : SigmaT → List ρ → List ℚ) (opt : SigmaT → SigmaT)
    (shuffled : Nat → List ρ) (b epochs : Nat) :
    Nat → ModelState → Option ModelState
  | 0, st => some st
  | k + 1, st =>
    (fitFull lossVecOf opt shuffled b epochs st).bind
      (fitK lossVecOf opt shuffled b epochs k)

/-- Replay of the `fit` inner loop collecting every batch loss of one
epoch (specification-side view of `runBatches`). -/
def collectBatches (step : SigmaT → List ρ → SigmaT × ℚ) :
    List (List ρ) → SigmaT → SigmaT × List ℚ
  | [], s => (s, [])
  | batch :: rest, s =>
    ((collectBatches step rest (step s batch).1).1,
     (step s batch).2 :: (collectBatches step rest (step s batch).1).2)

/-- Parameters at the start of epoch `e` when running epochs from index
`i` (replay of the epoch loop's parameter evolution). -/
def runEpochsState (step : SigmaT → List ρ → SigmaT × ℚ) (loader : Nat → List (List ρ)) :
    Nat → Nat → SigmaT → SigmaT
  | 0, _, s => s
  | e + 1, i, s =>
    runEpochsState step loader e (i + 1) (runBatches step (loader i) s none).1

/-- The list of batch losses computed during epoch `e` of a `fit` run that
started at epoch index `i` with parameters `s`. -/
def epochLosses (step : SigmaT → List ρ → SigmaT × ℚ) (loader : Nat → List (List ρ))
    (i : Nat) (s : SigmaT) (e : Nat) : List ℚ :=
  (collectBatches step (loader (i + e)) (runEpochsState step loader e i s)).2

/-- The constant `alpha = 1.70169` of `__build_loss_function`. -/
def alphaC : ℚ := 170169 / 100000

/-- The constant `eps = 0.00001` of `__build_loss_function`. -/
def epsC : ℚ := 1 / 100000

/-- Embedding of `torch.add(torch.tensordot(noise, self.sigma.t(), dims = 1), mu)`:
the latent sample `samples[s,i,j] = (Σ_k noise[s,i,k]·sigma[j,k]) + mu[i,j]`. -/
def samplesT {S b df r : Nat} (sigma : Fin r → Fin df → ℚ)
    (noise : Fin S → Fin b → Fin df → ℚ) (mu : Fin b → Fin r → ℚ)
    (s : Fin S) (i : Fin b) (j : Fin r) : ℚ :=
  (∑ k, noise s i k * sigma j k) + mu i j

/-- The scaled-logistic link of the training loss:
`E = sigmoid(alpha·samples)·(1 − eps) + eps·0.5`, with `sigmoid`
supplied by the external tensor backend as `sig`. -/
def linkE {S b df r : Nat} (sig : ℚ → ℚ) (sigma : Fin r → Fin df → ℚ)
    (noise : Fin S → Fin b → Fin df → ℚ) (mu : Fin b → Fin r → ℚ)
    (s : Fin S) (i : Fin b) (j : Fin r) : ℚ :=
  sig (alphaC * samplesT sigma noise mu s i j) * (1 - epsC) + epsC * (1 / 2)

/-- Embedding of `indll = torch.neg(log(E)·Y + log(1−E)·(1−Y))`, the per-sample,
per-response negative Bernoulli log-likelihood (`lg` is `torch.log`). -/
def indllT {S b df r : Nat} (sig lg : ℚ → ℚ) (sigma : Fin r → Fin df → ℚ)
    (noise : Fin S → Fin b → Fin df → ℚ) (mu Y : Fin b → Fin r → ℚ)
    (s : Fin S) (i : Fin b) (j : Fin r) : ℚ :=
  -(lg (linkE sig sigma noise mu s i j) * Y i j +
    lg (1 - linkE sig sigma noise mu s i j) * (1 - Y i j))

/-- Embedding of `logprob = torch.neg(torch.sum(indll, dim = 2))`: per-sample joint
log-probability of the batch row `i` under sample `s`. -/
def logprobT {S b df r : Nat} (sig lg : ℚ → ℚ) (sigma : Fin r → Fin df → ℚ)
    (noise : Fin S → Fin b → Fin df → ℚ) (mu Y : Fin b → Fin r → ℚ)
    (s : Fin S) (i : Fin b) : ℚ :=
  -(∑ j, indllT sig lg sigma noise mu Y s i j)

/-- Embedding of `maxlogprob = torch.max(logprob, dim = 0).values`: the per-observation
maximum over samples. -/
def maxlogprobT {S b df r : Nat} [NeZero S] (sig lg : ℚ → ℚ)
    (sigma : Fin r → Fin df → ℚ) (noise : Fin S → Fin b → Fin df → ℚ)
    (mu Y : Fin b → Fin r → ℚ) (i : Fin b) : ℚ :=
  Finset.univ.sup' ⟨⟨0, Nat.pos_of_ne_zero (NeZero.ne S)⟩, Finset.mem_univ _⟩
    (fun s => logprobT sig lg sigma noise mu Y s i)

/-- Embedding of `Eprob = torch.mean(torch.exp(logprob − maxlogprob), dim = 0)`
(`ex` is `torch.exp`). -/
def EprobT {S b df r : Nat} [NeZero S] (sig lg ex : ℚ → ℚ)
    (sigma : Fin r → Fin df → ℚ) (noise : Fin S → Fin b → Fin df → ℚ)
    (mu Y : Fin b → Fin r → ℚ) (i : Fin b) : ℚ :=
  (∑ s, ex (logprobT sig lg sigma noise mu Y s i -
    maxlogprobT sig lg sigma noise mu Y i)) / (S : ℚ)

/-- The training-mode per-observation loss vector of
`__build_loss_function(train=True)`:
`loss = torch.sub(torch.neg(torch.log(Eprob)), maxlogprob)`. -/
def lossTrainT {S b df r : Nat} [NeZero S] (sig lg ex : ℚ → ℚ)
    (sigma : Fin r → Fin df → ℚ) (noise : Fin S → Fin b → Fin df → ℚ)
    (mu Y : Fin b → Fin r → ℚ) (i : Fin b) : ℚ :=
  -(lg (EprobT sig lg ex sigma noise mu Y i)) - maxlogprobT sig lg sigma noise mu Y i

/-- The evaluation-mode output of `__build_loss_function(train=False)`:
`torch.mean(E, dim = 0)`, the sample-mean expected probability. -/
def lossEvalT {S b df r : Nat} (sig : ℚ → ℚ) (sigma : Fin r → Fin df → ℚ)
    (noise : Fin S → Fin b → Fin df → ℚ) (mu : Fin b → Fin r → ℚ)
    (i : Fin b) (j : Fin r) : ℚ :=
  (∑ s, linkE sig sigma noise mu s i j) / (S : ℚ)

/-- Modelled from the claim wording (specification side of C2): latent
samples `mu + noise·sigmaᵀ`, link `E = sigmoid(alpha·samples)·(1−eps) + eps/2`,
per-sample joint log-probability
`logprob = Σ_responses (Y·log E + (1−Y)·log(1−E))`. -/
def logprobSpecT {S b df r : Nat} (sig lg : ℚ → ℚ) (sigma : Fin r → Fin df → ℚ)
    (noise : Fin S → Fin b → Fin df → ℚ) (mu Y : Fin b → Fin r → ℚ)
    (s : Fin S) (i : Fin b) : ℚ :=
  ∑ j, (Y i j * lg (sig (alphaC * (mu i j + ∑ k, noise s i k * sigma j k)) *
          (1 - epsC) + epsC / 2) +
        (1 - Y i j) * lg (1 - (sig (alphaC * (mu i j + ∑ k, noise s i k * sigma j k)) *
          (1 - epsC) + epsC / 2)))

/-- Specification side of C2, continued: the per-observation maximum of
`logprob` over samples. -/
def maxlogprobSpecT {S b df r : Nat} [NeZero S] (sig lg : ℚ → ℚ)
    (sigma : Fin r → Fin df → ℚ) (noise : Fin S → Fin b → Fin df → ℚ)
    (mu Y : Fin b → Fin r → ℚ) (i : Fin b) : ℚ :=
  Finset.univ.sup' ⟨⟨0, Nat.pos_of_ne_zero (NeZero.ne S)⟩, Finset.mem_univ _⟩
    (fun s => logprobSpecT sig lg sigma noise mu Y s i)

/-- Specification side of C2, concluded: the length-`b` loss vector
`-log(mean over samples of exp(logprob − max)) − max`. -/
def lossTrainSpecT {S b df r : Nat} [NeZero S] (sig lg ex : ℚ → ℚ)
    (sigma : Fin r → Fin df → ℚ) (noise : Fin S → Fin b → Fin df → ℚ)
    (mu Y : Fin b → Fin r → ℚ) (i : Fin b) : ℚ :=
  -(lg ((∑ s, ex (logprobSpecT sig lg sigma noise mu Y s i -
      maxlogprobSpecT sig lg sigma noise mu Y i)) / (S : ℚ))) -
    maxlogprobSpecT sig lg sigma noise mu Y i

/-- Specification-side view of the `fit` history: one entry per epoch,
each the last element of that epoch's batch-loss list. -/
def fitHistSpec (step : SigmaT → List ρ → SigmaT × ℚ) (loader : Nat → List (List ρ)) :
    Nat → Nat → SigmaT → List ℚ
  | 0, _, _ => []
  | e + 1, i, s =>
    (collectBatches step (loader i) s).2.getLastD 0 ::
      fitHistSpec step loader e (i + 1) (runBatches step (loader i) s none).1

/-- A freshly constructed model (no `build` yet): one layer of output
width 2, `df` unset. -/
def modelA : ModelState :=
  { input_shape := 1, layers := [2], df := none, sigma := [], losses := [],
    history := [], weights_numpy := [], sigma_numpy := [] }

/-- A built model: one layer of output width 1, `df = 1`,
`sigma = [[0]]`, no registered regularization closures. -/
def modelB : ModelState :=
  { input_shape := 1, layers := [1], df := some 1, sigma := [[0]], losses := [],
    history := [], weights_numpy := [], sigma_numpy := [] }

/- ------------------------------------------------------------------ -/
/- Helper lemmas                                                       -/
/- ------------------------------------------------------------------ -/

theorem chunksDropGo_length {α : Type _} (b : Nat) (hb : 1 ≤ b) :
    ∀ (fuel : Nat) (xs : List α), xs.length ≤ fuel →
      (chunksDropGo b fuel xs).length = xs.length / b := by
  intro fuel
  induction fuel with
  | zero =>
    intro xs hxs
    match xs, hxs with
    | [], _ => simp [chunksDropGo]
  | succ fuel ih =>
    intro xs hxs
    match xs with
    | [] => simp [chunksDropGo]
    | x :: l =>
      rw [chunksDropGo]
      by_cases h : (x :: l).length < b
      · rw [if_pos h, Nat.div_eq_of_lt h]
        rfl
      · rw [if_neg h]
        push_neg at h
        simp only [List.length_cons] at h
        have hdrop : ((x :: l).drop b).length ≤ fuel := by
          simp only [List.length_drop]
          simp only [List.length_cons] at hxs ⊢
          omega
        have := ih ((x :: l).drop b) hdrop
        simp only [List.length_cons, List.length_drop] at this ⊢
        rw [this]
        conv_rhs => rw [show l.length + 1 = (l.length + 1 - b) + b by omega]
        rw [Nat.add_div_right _ (by omega : 0 < b)]

theorem chunksDrop_length {α : Type _} (b : Nat) (xs : List α) :
    (chunksDrop b xs).length = xs.length / b := by
  unfold chunksDrop
  by_cases hb : b = 0
  · simp [hb]
  · rw [if_neg hb]
    exact chunksDropGo_length b (by omega) xs.length xs le_rfl

theorem chunksDropGo_mem {α : Type _} (b : Nat) (hb : 1 ≤ b) :
    ∀ (fuel : Nat) (xs : List α) (c : List α), xs.length ≤ fuel →
      c ∈ chunksDropGo b fuel xs → c.length = b := by
  intro fuel
  induction fuel with
  | zero =>
    intro xs c hxs hc
    match xs, hxs with
    | [], _ => simp [chunksDropGo] at hc
  | succ fuel ih =>
    intro xs c hxs hc
    match xs with
    | [] => simp [chunksDropGo] at hc
    | x :: l =>
      rw [chunksDropGo] at hc
      by_cases h : (x :: l).length < b
      · rw [if_pos h] at hc
        simp at hc
      · rw [if_neg h] at hc
        push_neg at h
        simp only [List.length_cons] at h
        simp only [List.length_cons] at hxs
        have hdrop : ((x :: l).drop b).length ≤ fuel := by
          simp only [List.length_drop, List.length_cons]
          omega
        rcases List.mem_cons.mp hc with rfl | hmem
        · simp only [List.length_take, List.length_cons]
          omega
        · exact ih ((x :: l).drop b) c hdrop hmem

theorem chunksDrop_mem {α : Type _} (b : Nat) (xs : List α) (c : List α)
    (hc : c ∈ chunksDrop b xs) : c.length = b := by
  unfold chunksDrop at hc
  by_cases hb : b = 0
  · simp [hb] at hc
  · rw [if_neg hb] at hc
    exact chunksDropGo_mem b (by omega) xs.length xs c le_rfl hc

theorem join_length_uniform {α : Type _} (b : Nat) :
    ∀ (L : List (List α)), (∀ c ∈ L, c.length = b) →
      L.flatten.length = b * L.length := by
  intro L
  induction L with
  | nil => simp
  | cons c L ih =>
    intro h
    simp only [List.flatten_cons, List.length_append, List.length_cons]
    rw [h c (List.mem_cons_self _ _), ih (fun d hd => h d (List.mem_cons_of_mem _ hd))]
    ring

/-- C5: For every dataset with N rows and every batch_size ≥ 1, each epoch
of `fit` processes exactly `⌊N / batch_size⌋` full batches — the trailing
partial batch is dropped (`drop_last=True`), every processed batch has
exactly `batch_size` rows, and the total number of processed rows is
`batch_size · ⌊N / batch_size⌋` (so N = 101, batch_size = 25 gives exactly
4 batches covering 100 rows, never 5). -/
theorem fit_epoch_batch_count {α : Type _} (b : Nat) (xs : List α) (c : List α)
    (hb : 1 ≤ b) (hc : c ∈ getDataLoader b true xs) :
    (getDataLoader b true xs).length = xs.length / b ∧
    c.length = b ∧
    (getDataLoader b true xs).flatten.length = b * (xs.length / b) := by
  have hlen : (getDataLoader b true xs).length = xs.length / b := by
    simpa [getDataLoader] using chunksDrop_length b xs
  have hmem : ∀ d ∈ getDataLoader b true xs, d.length = b := by
    intro d hd
    exact chunksDrop_mem b xs d (by simpa [getDataLoader] using hd)
  refine ⟨hlen, hmem c hc, ?_⟩
  rw [join_length_uniform b _ hmem, hlen]

/-- Witness for C5 at the documented instance: N = 101, batch_size = 25
yields 4 full batches of 25 rows each, 100 rows in total. -/
theorem fit_epoch_batch_count_witness :
    (getDataLoader 25 true (List.replicate 101 (0 : Nat))).length =
        (List.replicate 101 (0 : Nat)).length / 25 ∧
    (List.replicate 25 (0 : Nat)).length = 25 ∧
    (getDataLoader 25 true (List.replicate 101 (0 : Nat))).flatten.length =
        25 * ((List.replicate 101 (0 : Nat)).length / 25) :=
  fit_epoch_batch_count 25 (List.replicate 101 (0 : Nat))
    (List.replicate 25 (0 : Nat)) (by omega) (by decide)

theorem mapRows_getElem? {ρ σ : Type _} (f : Nat → ρ → σ) :
    ∀ (xs : List ρ) (j i : Nat),
      (mapRows f j xs)[i]? = Option.map (f (j + i)) xs[i]? := by
  intro xs
  induction xs with
  | nil => intro j i; simp [mapRows]
  | cons x l ih =>
    intro j i
    match i with
    | 0 => simp [mapRows]
    | i + 1 =>
      simp only [mapRows, List.getElem?_cons_succ]
      rw [ih (j + 1) i]
      have : j + 1 + i = j + (i + 1) := by omega
      rw [this]

theorem mapRows_length {ρ σ : Type _} (f : Nat → ρ → σ) :
    ∀ (xs : List ρ) (j : Nat), (mapRows f j xs).length = xs.length := by
  intro xs
  induction xs with
  | nil => intro j; rfl
  | cons x l ih => intro j; simp [mapRows, ih]

theorem predictLoopGo_length {ρ σ : Type _} (evalRow : Nat → Nat → ρ → σ) (b : Nat)
    (hb : 1 ≤ b) :
    ∀ (fuel : Nat) (xs : List ρ) (k : Nat), xs.length ≤ fuel →
      (predictLoopGo evalRow b fuel k xs).length = xs.length := by
  intro fuel
  induction fuel with
  | zero =>
    intro xs k hxs
    match xs, hxs with
    | [], _ => rfl
  | succ fuel ih =>
    intro xs k hxs
    match xs with
    | [] => rfl
    | x :: l =>
      simp only [predictLoopGo, List.length_append, mapRows_length, List.length_take]
      rw [ih ((x :: l).drop b) (k + 1)
        (by simp only [List.length_drop, List.length_cons] at hxs ⊢; omega)]
      simp only [List.length_drop, List.length_cons]
      omega

theorem predictLoopGo_getElem? {ρ σ : Type _} (evalRow : Nat → Nat → ρ → σ) (b : Nat)
    (hb : 1 ≤ b) :
    ∀ (fuel : Nat) (xs : List ρ) (k i : Nat), xs.length ≤ fuel →
      (predictLoopGo evalRow b fuel k xs)[i]? =
        Option.map (evalRow (k + i / b) (i % b)) xs[i]? := by
  intro fuel
  induction fuel with
  | zero =>
    intro xs k i hxs
    match xs, hxs with
    | [], _ => simp [predictLoopGo]
  | succ fuel ih =>
    intro xs k i hxs
    match xs with
    | [] => simp [predictLoopGo]
    | x :: l =>
      simp only [predictLoopGo]
      by_cases hib : i < b
      · have hdiv : i / b = 0 := Nat.div_eq_of_lt hib
        have hmod : i % b = i := Nat.mod_eq_of_lt hib
        by_cases hil : i < (x :: l).length
        · have hleft : i < (mapRows (evalRow k) 0 ((x :: l).take b)).length := by
            rw [mapRows_length, List.length_take]
            omega
          rw [List.getElem?_append_left hleft, mapRows_getElem?, List.getElem?_take,
            if_pos hib, hdiv, hmod]
          simp
        · push_neg at hil
          rw [List.getElem?_eq_none (by omega : (x :: l).length ≤ i),
            List.getElem?_eq_none]
          · simp
          · rw [List.length_append, mapRows_length, List.length_take,
              predictLoopGo_length evalRow b hb fuel ((x :: l).drop b) (k + 1)
                (by simp only [List.length_drop, List.length_cons] at hxs ⊢; omega),
              List.length_drop]
            omega
      · push_neg at hib
        have hmin : (mapRows (evalRow k) 0 ((x :: l).take b)).length = min b (x :: l).length := by
          rw [mapRows_length, List.length_take]
        by_cases hil : i < (x :: l).length
        · have hbl : b ≤ (x :: l).length := by omega
          rw [List.getElem?_append_right (by rw [hmin]; omega)]
          rw [ih ((x :: l).drop b) (k + 1) (i - (mapRows (evalRow k) 0 ((x :: l).take b)).length)
            (by simp only [List.length_drop, List.length_cons] at hxs ⊢; omega)]
          rw [hmin, Nat.min_eq_left hbl]
          rw [List.getElem?_drop]
          have hidx : b + (i - b) = i := by omega
          rw [hidx]
          have harith : k + 1 + (i - b) / b = k + i / b := by
            conv_rhs => rw [show i = (i - b) + b by omega]
            rw [Nat.add_div_right _ (by omega : 0 < b)]
            omega
          have hmod : (i - b) % b = i % b := by
            conv_rhs => rw [show i = (i - b) + b by omega]
            rw [Nat.add_mod_right]
          rw [harith, hmod]
        · push_neg at hil
          rw [List.getElem?_eq_none (by omega : (x :: l).length ≤ i),
            List.getElem?_eq_none]
          · simp
          · rw [List.length_append, mapRows_length, List.length_take,
              predictLoopGo_length evalRow b hb fuel ((x :: l).drop b) (k + 1)
                (by simp only [List.length_drop, List.length_cons] at hxs ⊢; omega),
              List.length_drop]
            omega

/-- C8: `predict` with any `batch_size ≥ 1` processes the rows of
`newdata` in original order, drops no trailing batch, and concatenates the
per-batch evaluation-mode outputs so that output row `i` is the
evaluation-mode value of input row `i` (computed in batch `i / b` at
in-batch position `i % b`); in particular the output has exactly as many
rows as `newdata`. -/
theorem predict_preserves_row_order {ρ σ : Type _} (evalRow : Nat → Nat → ρ → σ)
    (b : Nat) (xs : List ρ) (i : Nat) (hb : 1 ≤ b) :
    (predictModel evalRow b xs).length = xs.length ∧
    (predictModel evalRow b xs)[i]? =
      Option.map (evalRow (i / b) (i % b)) xs[i]? := by
  have hbne : ¬ b = 0 := by omega
  constructor
  · unfold predictModel
    rw [if_neg hbne]
    exact predictLoopGo_length evalRow b hb xs.length xs 0 le_rfl
  · unfold predictModel
    rw [if_neg hbne]
    have := predictLoopGo_getElem? evalRow b hb xs.length xs 0 i le_rfl
    simpa using this

/-- Witness for C8: two rows, `batch_size = 1` — output row 1 is the
evaluation of input row 1 (and the output has 2 rows). -/
theorem predict_preserves_row_order_witness :
    (predictModel (fun k j x => (k, j, x)) 1 [(10 : Nat), 20]).length =
        [(10 : Nat), 20].length ∧
    (predictModel (fun k j x => (k, j, x)) 1 [(10 : Nat), 20])[1]? =
      Option.map (fun x => ((1 : Nat) / 1, (1 : Nat) % 1, x)) [(10 : Nat), 20][1]? :=
  predict_preserves_row_order (fun k j x => (k, j, x)) 1 [(10 : Nat), 20] 1 (by omega)

/-- C1 (failing-input evidence): `logLik` does not process every dataset
with all N rows for arbitrary `batch_size`.  With N = 5 rows and
`batch_size = 3` the loader yields a trailing partial batch of 2 rows
(`drop_last=False`), but the loss closure is called with the full
`batch_size`, so the noise tensor `[S, 3, df]` cannot be broadcast against
the 2-row `mu`, and the call raises a runtime shape error instead of
returning the accumulated sums (contrast `predict`, which passes
`x.shape[0]`). -/
theorem logLik_partial_batch_raises :
    logLikModel (fun x y => x * y) [] 3
      [(0 : ℚ), 1, 2, 3, 4] [(1 : ℚ), 1, 1, 1, 1] = none := by
  decide

/-- C4 (failing-input evidence): `fit` with `batch_size` larger than the
dataset (10 rows, `batch_size = 25`, one epoch) produces zero full
batches; the inner loop never assigns the local `loss`, and reading it for
the epoch's history entry raises `NameError` — an unintended failure, not
an explicitly handled boundary condition. -/
theorem fit_zero_batches_name_error :
    fitFull (fun (_ : SigmaT) (bt : List ℚ) => bt) id
      (fun _ => (List.range 10).map (fun n => (n : ℚ))) 25 1
      { input_shape := 1, layers := [2], df := some 1, sigma := [[0], [0]],
        losses := [], history := [], weights_numpy := [], sigma_numpy := [] } = none := by
  rfl

/-- C7: with `l1 > 0`, `l2 = 0` and `reg_on_Cov = False`, the covariance
regularizer registers exactly one closure, and its value at any factor `F`
is `l1 · Σ|F_ij|` over all entries of `F` (no triangular restriction, no
sampling): the total registered covariance-regularization loss is
deterministically `l1 · sumAbs F`. -/
theorem cov_regularizer_l1_factor (inv : SigmaT → SigmaT) (l1 : ℚ) (F : SigmaT)
    (reg_on_Diag inverse : Bool) (h1 : 0 < l1) :
    ((covConstrainLosses inv l1 0 false reg_on_Diag inverse).map (fun f => f F)).sum =
      l1 * sumAbs F := by
  simp [covConstrainLosses, h1]

/-- Witness for C7: `l1 = 2`, `F = [[-3, 1]]` gives total regularization
loss `2·(3+1) = 2 · sumAbs F`. -/
theorem cov_regularizer_l1_factor_witness :
    ((covConstrainLosses id 2 0 false true false).map (fun f => f [[-3, 1]])).sum =
      2 * sumAbs [[-3, 1]] :=
  cov_regularizer_l1_factor id 2 [[-3, 1]] true false (by norm_num)

theorem logprobT_eq_spec {S b df r : Nat} (sig lg : ℚ → ℚ)
    (sigma : Fin r → Fin df → ℚ) (noise : Fin S → Fin b → Fin df → ℚ)
    (mu Y : Fin b → Fin r → ℚ) (s : Fin S) (i : Fin b) :
    logprobT sig lg sigma noise mu Y s i = logprobSpecT sig lg sigma noise mu Y s i := by
  unfold logprobT logprobSpecT indllT linkE samplesT
  rw [show (∑ j, -(lg (sig (alphaC * ((∑ k, noise s i k * sigma j k) + mu i j)) *
      (1 - epsC) + epsC * (1 / 2)) * Y i j +
      lg (1 - (sig (alphaC * ((∑ k, noise s i k * sigma j k) + mu i j)) *
      (1 - epsC) + epsC * (1 / 2))) * (1 - Y i j))) =
    -(∑ j, (lg (sig (alphaC * ((∑ k, noise s i k * sigma j k) + mu i j)) *
      (1 - epsC) + epsC * (1 / 2)) * Y i j +
      lg (1 - (sig (alphaC * ((∑ k, noise s i k * sigma j k) + mu i j)) *
      (1 - epsC) + epsC * (1 / 2))) * (1 - Y i j)))
    from Finset.sum_neg_distrib, neg_neg]
  refine Finset.sum_congr rfl (fun j _ => ?_)
  rw [show (∑ k, noise s i k * sigma j k) + mu i j =
      mu i j + ∑ k, noise s i k * sigma j k from add_comm _ _]
  rw [show epsC * (1 / 2) = epsC / 2 from by ring]
  ring

/-- C2: the training-mode loss closure built by `__build_loss_function`
computes exactly the claimed formula: latent samples `mu + noise·sigmaᵀ`,
link `E = sigmoid(alpha·samples)·(1−eps) + eps/2` with `alpha = 1.70169`
and `eps = 1e-5`, per-sample joint log-probability
`logprob = Σ_responses (Y·log E + (1−Y)·log(1−E))`, and per-observation
loss `−log(mean over samples of exp(logprob − max)) − max` where `max` is
the per-observation maximum of `logprob` over the `S` samples — for every
entry `i` of the length-`b` loss vector. -/
theorem loss_train_matches_spec {S b df r : Nat} [NeZero S] (sig lg ex : ℚ → ℚ)
    (sigma : Fin r → Fin df → ℚ) (noise : Fin S → Fin b → Fin df → ℚ)
    (mu Y : Fin b → Fin r → ℚ) (i : Fin b) :
    lossTrainT sig lg ex sigma noise mu Y i =
      lossTrainSpecT sig lg ex sigma noise mu Y i := by
  have hfun : (fun s => logprobT sig lg sigma noise mu Y s i) =
      (fun s => logprobSpecT sig lg sigma noise mu Y s i) :=
    funext (fun s => logprobT_eq_spec sig lg sigma noise mu Y s i)
  have hmax : maxlogprobT sig lg sigma noise mu Y i =
      maxlogprobSpecT sig lg sigma noise mu Y i := by
    unfold maxlogprobT maxlogprobSpecT
    rw [hfun]
  unfold lossTrainT lossTrainSpecT EprobT
  rw [hmax, Finset.sum_congr rfl
    (fun s _ => by rw [logprobT_eq_spec sig lg sigma noise mu Y s i])]

/-- Witness for C2 at `S = b = df = r = 1` with identity stand-ins for the
backend's sigmoid/log/exp and zero inputs. -/
theorem loss_train_matches_spec_witness :
    lossTrainT id id id ((fun _ _ => 0) : Fin 1 → Fin 1 → ℚ)
      ((fun _ _ _ => 0) : Fin 1 → Fin 1 → Fin 1 → ℚ)
      (fun _ _ => 0) (fun _ _ => 0) 0 =
    lossTrainSpecT id id id ((fun _ _ => 0) : Fin 1 → Fin 1 → ℚ)
      ((fun _ _ _ => 0) : Fin 1 → Fin 1 → Fin 1 → ℚ)
      (fun _ _ => 0) (fun _ _ => 0) 0 :=
  loss_train_matches_spec id id id (fun _ _ => 0) (fun _ _ _ => 0)
    (fun _ _ => 0) (fun _ _ => 0) 0

theorem runBatches_fst {ρ : Type _} (step : SigmaT → List ρ → SigmaT × ℚ) :
    ∀ (bs : List (List ρ)) (s : SigmaT) (p : Option ℚ),
      (runBatches step bs s p).1 = (collectBatches step bs s).1 := by
  intro bs
  induction bs with
  | nil => intro s p; rfl
  | cons batch rest ih =>
    intro s p
    simp only [runBatches, collectBatches]
    exact ih _ _

theorem collectBatches_len {ρ : Type _} (step : SigmaT → List ρ → SigmaT × ℚ) :
    ∀ (bs : List (List ρ)) (s : SigmaT),
      (collectBatches step bs s).2.length = bs.length := by
  intro bs
  induction bs with
  | nil => intro s; rfl
  | cons batch rest ih =>
    intro s
    simp only [collectBatches, List.length_cons]
    rw [ih]

theorem getLastD_indep {α : Type _} :
    ∀ (l : List α) (d1 d2 : α), l ≠ [] → l.getLastD d1 = l.getLastD d2 := by
  intro l
  induction l with
  | nil => intro d1 d2 h; exact absurd rfl h
  | cons x xs ih =>
    intro d1 d2 _
    match xs with
    | [] => rfl
    | y :: ys =>
      exact (List.getLastD_cons d1 x (y :: ys)).trans
        (List.getLastD_cons d2 x (y :: ys)).symm

theorem runBatches_snd_some {ρ : Type _} (step : SigmaT → List ρ → SigmaT × ℚ) :
    ∀ (bs : List (List ρ)) (s : SigmaT) (d : ℚ),
      (runBatches step bs s (some d)).2 =
        some ((collectBatches step bs s).2.getLastD d) := by
  intro bs
  induction bs with
  | nil => intro s d; rfl
  | cons batch rest ih =>
    intro s d
    simp only [runBatches, collectBatches]
    rw [ih, List.getLastD_cons]

theorem runBatches_snd_none {ρ : Type _} (step : SigmaT → List ρ → SigmaT × ℚ)
    (bs : List (List ρ)) (s : SigmaT) (hbs : bs ≠ []) :
    (runBatches step bs s none).2 =
      some ((collectBatches step bs s).2.getLastD 0) := by
  match bs with
  | [] => exact absurd rfl hbs
  | batch :: rest =>
    simp only [runBatches, collectBatches]
    rw [runBatches_snd_some, List.getLastD_cons]

theorem fitEpochsAux_eq {ρ : Type _} (step : SigmaT → List ρ → SigmaT × ℚ)
    (loader : Nat → List (List ρ)) (hne : ∀ j, loader j ≠ []) :
    ∀ (e i : Nat) (s : SigmaT) (p : Option ℚ),
      fitEpochsAux step loader e i s p =
        some (runEpochsState step loader e i s, fitHistSpec step loader e i s) := by
  intro e
  induction e with
  | zero => intro i s p; rfl
  | succ e ih =>
    intro i s p
    have hclen : (collectBatches step (loader i) s).2 ≠ [] := by
      have := collectBatches_len step (loader i) s
      intro hnil
      rw [hnil] at this
      exact hne i (List.length_eq_zero.mp this.symm)
    have h2 : (runBatches step (loader i) s p).2 =
        some ((collectBatches step (loader i) s).2.getLastD 0) := by
      cases p with
      | none => exact runBatches_snd_none step (loader i) s (hne i)
      | some d =>
        rw [runBatches_snd_some]
        exact congrArg some (getLastD_indep _ d 0 hclen)
    have hfst : (runBatches step (loader i) s p).1 =
        (runBatches step (loader i) s none).1 := by
      rw [runBatches_fst, runBatches_fst]
    simp only [fitEpochsAux, h2, hfst, ih]
    rfl

theorem fitEpochsAux_fst {ρ : Type _} (step : SigmaT → List ρ → SigmaT × ℚ)
    (loader : Nat → List (List ρ)) :
    ∀ (e i : Nat) (s : SigmaT) (p : Option ℚ) (q : SigmaT × List ℚ),
      fitEpochsAux step loader e i s p = some q →
        q.1 = runEpochsState step loader e i s := by
  intro e
  induction e with
  | zero =>
    intro i s p q h
    simp only [fitEpochsAux] at h
    injection h with h
    rw [← h]
    rfl
  | succ e ih =>
    intro i s p q h
    simp only [fitEpochsAux] at h
    split at h
    · simp at h
    · rename_i l h2
      cases hinner : fitEpochsAux step loader e (i + 1) (runBatches step (loader i) s p).1 (some l) with
      | none => rw [hinner] at h; simp at h
      | some q' =>
        rw [hinner] at h
        simp only [Option.map_some'] at h
        injection h with h
        have hq1 : q.1 = q'.1 := by rw [← h]
        rw [hq1, ih _ _ _ _ hinner]
        simp only [runEpochsState]
        rw [runBatches_fst, ← runBatches_fst step (loader i) s none]

theorem fitHistSpec_length {ρ : Type _} (step : SigmaT → List ρ → SigmaT × ℚ)
    (loader : Nat → List (List ρ)) :
    ∀ (e i : Nat) (s : SigmaT), (fitHistSpec step loader e i s).length = e := by
  intro e
  induction e with
  | zero => intro i s; rfl
  | succ e ih =>
    intro i s
    simp only [fitHistSpec, List.length_cons]
    rw [ih]

theorem fitHistSpec_getD {ρ : Type _} (step : SigmaT → List ρ → SigmaT × ℚ)
    (loader : Nat → List (List ρ)) :
    ∀ (n e i : Nat) (s : SigmaT), e < n →
      (fitHistSpec step loader n i s).getD e 0 =
        (epochLosses step loader i s e).getLastD 0 := by
  intro n
  induction n with
  | zero => intro e i s he; omega
  | succ n ih =>
    intro e i s he
    match e with
    | 0 =>
      simp only [fitHistSpec, List.getD_cons_zero, epochLosses, runEpochsState]
      rw [Nat.add_zero]
    | e + 1 =>
      simp only [fitHistSpec, List.getD_cons_succ]
      rw [ih e (i + 1) ((runBatches step (loader i) s none).1) (by omega)]
      have hidx : i + (e + 1) = (i + 1) + e := by omega
      simp only [epochLosses, runEpochsState, hidx]

theorem fitFull_parts {ρ : Type _} (L : SigmaT → List ρ → List ℚ) (O : SigmaT → SigmaT)
    (sh : Nat → List ρ) (b ep : Nat) (st st' : ModelState)
    (h : fitFull L O sh b ep st = some st') :
    st'.layers = st.layers ∧ st'.df = st.df ∧ st'.losses = st.losses ∧
    st'.input_shape = st.input_shape ∧
    st'.weights_numpy = st.weights_numpy ++ st.layers := by
  unfold fitFull at h
  split at h
  · simp at h
  · rename_i pr hm
    injection h with h
    rw [← h]
    exact ⟨rfl, rfl, rfl, rfl, rfl⟩

theorem fitFull_hist {ρ : Type _} (L : SigmaT → List ρ → List ℚ) (O : SigmaT → SigmaT)
    (sh : Nat → List ρ) (b ep : Nat) (st st' : ModelState)
    (hne : ∀ j, getDataLoader b true (sh j) ≠ [])
    (h : fitFull L O sh b ep st = some st') :
    st'.history = fitHistSpec (batchStep st.losses L O)
      (fun i => getDataLoader b true (sh i)) ep 0 st.sigma := by
  unfold fitFull at h
  rw [fitEpochsAux_eq (batchStep st.losses L O) (fun i => getDataLoader b true (sh i))
    hne ep 0 st.sigma none] at h
  injection h with h
  rw [← h]

theorem fitFull_sigma {ρ : Type _} (L : SigmaT → List ρ → List ℚ) (O : SigmaT → SigmaT)
    (sh : Nat → List ρ) (b ep : Nat) (st st' : ModelState)
    (h : fitFull L O sh b ep st = some st') :
    st'.sigma = runEpochsState (batchStep st.losses L O)
      (fun i => getDataLoader b true (sh i)) ep 0 st.sigma := by
  unfold fitFull at h
  split at h
  · simp at h
  · rename_i s1 hist hm
    injection h with h
    rw [← h]
    exact fitEpochsAux_fst _ _ ep 0 st.sigma none (s1, hist) hm

theorem flatten_replicate_length {α : Type _} :
    ∀ (k : Nat) (l : List α), (List.replicate k l).flatten.length = k * l.length := by
  intro k
  induction k with
  | zero => intro l; simp
  | succ k ih =>
    intro l
    simp only [List.replicate_succ, List.flatten_cons, List.length_append, ih]
    ring

theorem fitK_weights {ρ : Type _} (L : SigmaT → List ρ → List ℚ) (O : SigmaT → SigmaT)
    (sh : Nat → List ρ) (b ep : Nat) :
    ∀ (k : Nat) (st st' : ModelState), fitK L O sh b ep k st = some st' →
      st'.weights_numpy = st.weights_numpy ++ (List.replicate k st.layers).flatten ∧
      st'.layers = st.layers := by
  intro k
  induction k with
  | zero =>
    intro st st' h
    simp only [fitK] at h
    injection h with h
    rw [← h]
    simp
  | succ k ih =>
    intro st st' h
    simp only [fitK] at h
    cases hf : fitFull L O sh b ep st with
    | none => rw [hf] at h; simp at h
    | some st1 =>
      rw [hf] at h
      simp only [Option.some_bind] at h
      obtain ⟨hw, hl⟩ := ih st1 st' h
      obtain ⟨hl1, _, _, _, hw1⟩ := fitFull_parts L O sh b ep st st1 hf
      refine ⟨?_, by rw [hl, hl1]⟩
      rw [hw, hw1, hl1]
      simp only [List.replicate_succ, List.flatten_cons, List.append_assoc]

/-- C9: for a completed `fit` call, `history` has one entry per epoch, and
entry `e` is exactly the loss of the **last** batch processed in epoch `e`
(the `batchStep` value: batch-mean training loss plus the sum of all
registered regularization closures, re-evaluated at that batch's
parameters), not an average over the epoch's batches. -/
theorem fit_history_last_batch {ρ : Type _} (L : SigmaT → List ρ → List ℚ)
    (O : SigmaT → SigmaT) (sh : Nat → List ρ) (b ep e : Nat) (st st' : ModelState)
    (hne : ∀ j, getDataLoader b true (sh j) ≠ [])
    (hfit : fitFull L O sh b ep st = some st') (he : e < ep) :
    st'.history.length = ep ∧
    epochLosses (batchStep st.losses L O) (fun i => getDataLoader b true (sh i))
      0 st.sigma e ≠ [] ∧
    st'.history.getD e 0 =
      (epochLosses (batchStep st.losses L O) (fun i => getDataLoader b true (sh i))
        0 st.sigma e).getLastD 0 := by
  have hh := fitFull_hist L O sh b ep st st' hne hfit
  refine ⟨?_, ?_, ?_⟩
  · rw [hh]
    exact fitHistSpec_length _ _ ep 0 st.sigma
  · unfold epochLosses
    intro hnil
    have hlen := collectBatches_len (batchStep st.losses L O)
      (getDataLoader b true (sh (0 + e)))
      (runEpochsState (batchStep st.losses L O)
        (fun i => getDataLoader b true (sh i)) e 0 st.sigma)
    rw [hnil] at hlen
    exact hne (0 + e) (List.length_eq_zero.mp hlen.symm)
  · rw [hh]
    exact fitHistSpec_getD _ _ ep e 0 st.sigma he

/-- Witness for C9: two one-row batches per epoch with per-observation
losses 1 and 2 — the recorded history entry is 2, the last batch's loss. -/
theorem fit_history_last_batch_witness :
    ({ modelB with sigma := [[0]], sigma_numpy := [[0]], history := [2],
                   weights_numpy := [1] } : ModelState).history.length = 1 ∧
    epochLosses (batchStep modelB.losses (fun _ bt => bt) id)
      (fun i => getDataLoader 1 true ((fun _ => [(1 : ℚ), 2]) i)) 0 modelB.sigma 0 ≠ [] ∧
    ({ modelB with sigma := [[0]], sigma_numpy := [[0]], history := [2],
                   weights_numpy := [1] } : ModelState).history.getD 0 0 =
      (epochLosses (batchStep modelB.losses (fun _ bt => bt) id)
        (fun i => getDataLoader 1 true ((fun _ => [(1 : ℚ), 2]) i)) 0 modelB.sigma 0).getLastD 0 :=
  fit_history_last_batch (fun _ bt => bt) id (fun _ => [(1 : ℚ), 2]) 1 1 0 modelB
    { modelB with sigma := [[0]], sigma_numpy := [[0]], history := [2],
                  weights_numpy := [1] }
    (fun _ => by show getDataLoader 1 true [(1 : ℚ), 2] ≠ []; decide)
    (by simp [fitFull, fitEpochsAux, runBatches, batchStep, getDataLoader,
      chunksDrop, chunksDropGo, modelB])
    (by omega)

/-- C10: every completed `fit` call appends one `get_weights_numpy`
snapshot per layer to `weights_numpy` without clearing earlier snapshots:
after `k` completed `fit` calls the stored list is the original list
followed by `k` copies of the per-layer snapshots (hence
`k · len(layers)` new entries), while `history` is rebuilt from scratch on
each call (its prior value is irrelevant to the result). -/
theorem fit_accumulates_weight_snapshots {ρ : Type _} (L : SigmaT → List ρ → List ℚ)
    (O : SigmaT → SigmaT) (sh : Nat → List ρ) (b ep k : Nat) (st st' : ModelState)
    (h1 h2 : List ℚ) (hk : fitK L O sh b ep k st = some st') :
    st'.weights_numpy = st.weights_numpy ++ (List.replicate k st.layers).flatten ∧
    st'.weights_numpy.length = st.weights_numpy.length + k * st.layers.length ∧
    (fitFull L O sh b ep { st with history := h1 }).map ModelState.history =
      (fitFull L O sh b ep { st with history := h2 }).map ModelState.history := by
  obtain ⟨hw, _⟩ := fitK_weights L O sh b ep k st st' hk
  refine ⟨hw, ?_, ?_⟩
  · rw [hw]
    simp only [List.length_append]
    rw [flatten_replicate_length]
  · show (fitFull L O sh b ep { st with history := h1 }).map ModelState.history =
      (fitFull L O sh b ep { st with history := h2 }).map ModelState.history
    unfold fitFull
    cases hm : fitEpochsAux (batchStep st.losses L O)
        (fun i => getDataLoader b true (sh i)) ep 0 st.sigma none with
    | none => simp only [hm]
    | some pr =>
      cases pr with
      | mk s1 hist => simp only [hm]

/-- Witness for C10: two completed `fit` calls on a one-layer model append
two snapshots (`k · len(layers) = 2`), and swapping the prior `history`
does not change the produced history. -/
theorem fit_accumulates_weight_snapshots_witness :
    ({ modelB with sigma := [[0]], sigma_numpy := [[0]], history := [1],
                   weights_numpy := [1, 1] } : ModelState).weights_numpy =
      modelB.weights_numpy ++ (List.replicate 2 modelB.layers).flatten ∧
    ({ modelB with sigma := [[0]], sigma_numpy := [[0]], history := [1],
                   weights_numpy := [1, 1] } : ModelState).weights_numpy.length =
      modelB.weights_numpy.length + 2 * modelB.layers.length ∧
    (fitFull (fun _ bt => bt) id (fun _ => [(1 : ℚ)]) 1 1
        { modelB with history := [(5 : ℚ)] }).map ModelState.history =
      (fitFull (fun _ bt => bt) id (fun _ => [(1 : ℚ)]) 1 1
        { modelB with history := [(7 : ℚ)] }).map ModelState.history :=
  fit_accumulates_weight_snapshots (fun _ bt => bt) id (fun _ => [(1 : ℚ)]) 1 1 2
    modelB
    { modelB with sigma := [[0]], sigma_numpy := [[0]], history := [1],
                  weights_numpy := [1, 1] }
    [(5 : ℚ)] [(7 : ℚ)]
    (by simp [fitK, fitFull, fitEpochsAux, runBatches, batchStep, getDataLoader,
      chunksDrop, chunksDropGo, modelB])

theorem initSigma_shape (r d : Nat) (draw : Nat → Nat → ℚ) :
    (initSigma r d draw).map List.length = List.replicate r d := by
  unfold initSigma
  rw [List.map_map]
  have hconst : (List.length ∘ fun i => (List.range d).map (draw i)) =
      fun _ : Nat => d := by
    funext i
    simp
  rw [hconst, List.map_const', List.length_range]

theorem buildS_some (st : ModelState) (dfArg : Nat) (draw : Nat → Nat → ℚ)
    (inv : SigmaT → SigmaT) (l1 l2 : ℚ) (rc rd iv : Bool) (s' : ModelState) (r0 : Nat)
    (hl : st.layers.getLast? = some r0)
    (h : buildS st dfArg draw inv l1 l2 rc rd iv = some s') :
    s' = { st with
           df := some (st.df.getD dfArg),
           sigma := initSigma r0 (st.df.getD dfArg) draw,
           losses := st.losses ++ covConstrainLosses inv l1 l2 rc rd iv } := by
  unfold buildS at h
  rw [hl] at h
  injection h with h
  exact h.symm

/-- C6: the latent rank `df` is fixed by the first successful `build`
call: a second `build` call with a different `df` argument silently keeps
the stored value, so its re-created `sigma` has shape `r × d1` (the first
call's rank, not the new argument), and a subsequent `fit` leaves the
stored `df` untouched (`predict` and `logLik` never write model state at
all in this embedding — they are pure functions of it). -/
theorem build_df_sticky {ρ : Type _} (L : SigmaT → List ρ → List ℚ) (O : SigmaT → SigmaT)
    (sh : Nat → List ρ) (b ep : Nat) (st s1 s2 st3 : ModelState) (d1 d2 r : Nat)
    (draw1 draw2 : Nat → Nat → ℚ) (inv : SigmaT → SigmaT) (l1 l2 : ℚ) (rc rd iv : Bool)
    (h0 : st.df = none)
    (hb1 : buildS st d1 draw1 inv l1 l2 rc rd iv = some s1)
    (hr : s1.layers.getLast? = some r)
    (hb2 : buildS s1 d2 draw2 inv l1 l2 rc rd iv = some s2)
    (hf : fitFull L O sh b ep s2 = some st3) :
    s1.df = some d1 ∧ s2.df = some d1 ∧ s2.sigma = initSigma r d1 draw2 ∧
    s2.sigma.map List.length = List.replicate r d1 ∧ st3.df = some d1 := by
  cases hl0 : st.layers.getLast? with
  | none =>
    unfold buildS at hb1
    rw [hl0] at hb1
    simp at hb1
  | some r0 =>
    have hs1 := buildS_some st d1 draw1 inv l1 l2 rc rd iv s1 r0 hl0 hb1
    have hdf1 : s1.df = some d1 := by rw [hs1]; simp [h0]
    have hs2 := buildS_some s1 d2 draw2 inv l1 l2 rc rd iv s2 r hr hb2
    have hdf2 : s2.df = some d1 := by rw [hs2]; simp [hdf1]
    have hsig : s2.sigma = initSigma r d1 draw2 := by
      rw [hs2]
      simp [hdf1]
    refine ⟨hdf1, hdf2, hsig, ?_, ?_⟩
    · rw [hsig]
      exact initSigma_shape r d1 draw2
    · obtain ⟨_, hdf, _, _, _⟩ := fitFull_parts L O sh b ep s2 st3 hf
      rw [hdf, hdf2]

/-- Witness for C6: second `build` with `df = 5` on a model built with
`df = 1` keeps `df = 1` and re-creates `sigma` with shape `2 × 1`. -/
theorem build_df_sticky_witness :
    ({ modelA with df := some 1, sigma := [[0], [0]] } : ModelState).df = some 1 ∧
    ({ modelA with df := some 1, sigma := [[1], [1]] } : ModelState).df = some 1 ∧
    ({ modelA with df := some 1, sigma := [[1], [1]] } : ModelState).sigma =
      initSigma 2 1 (fun _ _ => 1) ∧
    ({ modelA with df := some 1, sigma := [[1], [1]] } : ModelState).sigma.map
      List.length = List.replicate 2 1 ∧
    ({ modelA with df := some 1, sigma := [[1], [1]], sigma_numpy := [[1], [1]],
                   history := [1], weights_numpy := [2] } : ModelState).df = some 1 :=
  build_df_sticky (fun _ bt => bt) id (fun _ => [(1 : ℚ)]) 1 1
    modelA
    { modelA with df := some 1, sigma := [[0], [0]] }
    { modelA with df := some 1, sigma := [[1], [1]] }
    { modelA with df := some 1, sigma := [[1], [1]], sigma_numpy := [[1], [1]],
                  history := [1], weights_numpy := [2] }
    1 5 2 (fun _ _ => 0) (fun _ _ => 1) id 0 0 true true false
    (by rfl)
    (by simp [buildS, initSigma, covConstrainLosses, modelA])
    (by rfl)
    (by simp [buildS, initSigma, covConstrainLosses, modelA])
    (by simp [fitFull, fitEpochsAux, runBatches, batchStep, getDataLoader,
      chunksDrop, chunksDropGo, modelA])

/-- C3 (counterexample): a second `build` call *does* re-create and
re-initialize `sigma`.  Building `modelA` once with draws 0 yields
`sigma = [[0],[0]]`; calling `build` again (same model, fresh draws 1)
replaces it with `[[1],[1]]` — so `sigma` is not mutated only by the
optimizer's update step, contradicting the claim at this explicit input. -/
theorem build_recreates_sigma_cex :
    Option.map ModelState.sigma
      ((buildS modelA 1 (fun _ _ => 0) id 0 0 true true false).bind
        (fun s1 => buildS s1 5 (fun _ _ => 1) id 0 0 true true false)) ≠
    Option.map ModelState.sigma
      (buildS modelA 1 (fun _ _ => 0) id 0 0 true true false) := by
  simp [buildS, initSigma, covConstrainLosses, modelA]

/-- C3 (amended): after the first `build`, `df` — and hence `sigma`'s
shape `r × df` — is fixed and `sigma` is never resized; however each
subsequent `build` call re-initializes `sigma` with fresh draws of that
same shape.  Outside `build`, `sigma` is replaced only by the optimizer's
update step inside `fit`'s batch loop (`batchStep`'s parameter update is
exactly `opt`); `add_layer` leaves it unchanged, and `predict`/`logLik`
are pure functions of the state in this embedding and write nothing. -/
theorem sigma_mutation_discipline {ρ : Type _} (L : SigmaT → List ρ → List ℚ)
    (O : SigmaT → SigmaT) (sh : Nat → List ρ) (b ep w dfArg d r : Nat)
    (st s2 st3 : ModelState) (draw : Nat → Nat → ℚ) (inv : SigmaT → SigmaT)
    (l1 l2 : ℚ) (rc rd iv : Bool) (s : SigmaT) (bt : List ρ)
    (hd : st.df = some d)
    (hr : st.layers.getLast? = some r)
    (hb : buildS st dfArg draw inv l1 l2 rc rd iv = some s2)
    (hf : fitFull L O sh b ep st = some st3) :
    s2.sigma = initSigma r d draw ∧
    s2.sigma.map List.length = List.replicate r d ∧
    st3.sigma = runEpochsState (batchStep st.losses L O)
      (fun i => getDataLoader b true (sh i)) ep 0 st.sigma ∧
    (batchStep st.losses L O s bt).1 = O s ∧
    (addLayerS st w).sigma = st.sigma := by
  have hs2 := buildS_some st dfArg draw inv l1 l2 rc rd iv s2 r hr hb
  have hsig : s2.sigma = initSigma r d draw := by
    rw [hs2]
    simp [hd]
  refine ⟨hsig, ?_, fitFull_sigma L O sh b ep st st3 hf, rfl, rfl⟩
  rw [hsig]
  exact initSigma_shape r d draw

/-- Witness for the amended C3 on a concrete built model: a re-`build`
re-creates `sigma` at shape `1 × 1`, one `fit` epoch evolves `sigma` only
through the optimizer step, and `add_layer` leaves it be. -/
theorem sigma_mutation_discipline_witness :
    ({ modelB with df := some 1, sigma := [[3]], losses := [] } : ModelState).sigma =
      initSigma 1 1 (fun _ _ => 3) ∧
    ({ modelB with df := some 1, sigma := [[3]], losses := [] } : ModelState).sigma.map
      List.length = List.replicate 1 1 ∧
    ({ modelB with sigma := [[0]], sigma_numpy := [[0]], history := [1],
                   weights_numpy := [1] } : ModelState).sigma =
      runEpochsState (batchStep modelB.losses (fun _ bt => bt) id)
        (fun i => getDataLoader 1 true ((fun _ => [(1 : ℚ)]) i)) 1 0 modelB.sigma ∧
    (batchStep modelB.losses (fun _ bt => bt) id [[4]] [(9 : ℚ)]).1 = id [[4]] ∧
    (addLayerS modelB 6).sigma = modelB.sigma :=
  sigma_mutation_discipline (fun _ bt => bt) id (fun _ => [(1 : ℚ)]) 1 1 6 7 1 1
    modelB
    { modelB with df := some 1, sigma := [[3]], losses := [] }
    { modelB with sigma := [[0]], sigma_numpy := [[0]], history := [1],
                  weights_numpy := [1] }
    (fun _ _ => 3) id 0 0 true true false [[4]] [(9 : ℚ)]
    (by rfl) (by rfl)
    (by simp [buildS, initSigma, covConstrainLosses, modelB])
    (by simp [fitFull, fitEpochsAux, runBatches, batchStep, getDataLoader,
      chunksDrop, chunksDropGo, modelB])
